import Mathlib

/-!
Verification of the Web Reaper crawler.

Strings are modelled as lists of characters (`List Char`); response times are
modelled as rationals (`ℚ`, standing in for C++ `double`); the network is
modelled as an environment mapping each requested path to a fetch outcome.
Loops are modelled with explicit fuel so that every definition is executable.
-/

namespace WebReaper

/-! ### URL utility and parser (src/parser.cpp) -/

/-- Character allowlist of `reformatHttpResponse` (src/parser.cpp line 150). -/
def allowedChrsStr : String := "ABCDEFGHIJKLMNOPQRSTUVWXYZabcdefghijklmnopqrstuvwxyz0123456789.,/\":#?+-_= "

def allowedChrs : List Char := allowedChrsStr.data

/-- The character map of `reformatHttpResponse`: allowed characters map to
themselves, newline maps to space, everything else is absent; the result of a
lookup is passed through `tolower`. -/
def mapChar (c : Char) : Option Char :=
  if c = Char.ofNat 10 then some (Char.ofNat 32)
  else if c ∈ allowedChrs then some c.toLower
  else none

/-- `reformatHttpResponse` (src/parser.cpp lines 149-167): keep only mapped
characters, lower-cased; dropped characters leave no trace. -/
def reformatHttpResponse (text : List Char) : List Char :=
  text.filterMap mapChar

def httpsStr : String := "https://"
def httpStr : String := "http://"

/-- Shared prefix-stripping step of `getHostnameFromUrl` and
`getHostPathFromUrl` (src/parser.cpp lines 60-90). -/
def stripScheme (url : List Char) : List Char :=
  if httpsStr.data.isPrefixOf url then url.drop httpsStr.data.length
  else if httpStr.data.isPrefixOf url then url.drop httpStr.data.length
  else url

/-- `getHostnameFromUrl` (src/parser.cpp lines 60-72). -/
def getHostnameFromUrl (url : List Char) : List Char :=
  (stripScheme url).takeWhile (fun c => c != '/')

def slashStr : String := "/"

/-- `getHostPathFromUrl` (src/parser.cpp lines 74-90): `"/"` when no path is
present, otherwise the path with its leading run of slashes collapsed to one. -/
def getHostPathFromUrl (url : List Char) : List Char :=
  match (stripScheme url).dropWhile (fun c => c != '/') with
  | [] => slashStr.data
  | rest =>
    match rest.dropWhile (fun c => c == '/') with
    | [] => slashStr.data
    | tail => '/' :: tail

/-- Terminator characters `urlEndChars` of `extractUrls` (src/parser.cpp line 95). -/
def urlEndCharsStr : String := "\"#?, "

def urlEndChars : List Char := urlEndCharsStr.data

def isTerm (c : Char) : Bool := urlEndChars.contains c

/-- Model of `std::string::find(needle, pos)`: the suffix right after the first
occurrence of `marker`, or `none` when there is no occurrence. -/
def splitFirst (marker : List Char) : List Char → Option (List Char)
  | [] => none
  | c :: cs =>
    if marker.isPrefixOf (c :: cs) then some ((c :: cs).drop marker.length)
    else splitFirst marker cs

/-- Substring containment, as `url.find(needle) != string::npos`. -/
def containsSub (needle hay : List Char) : Bool :=
  (splitFirst needle hay).isSome

/-- Denylist `forbiddenTypes` of `verifyType` (src/parser.cpp lines 125-127). -/
def forbiddenTypes : List (List Char) :=
  [r".css".data, r".js".data, r".pdf".data, r".png".data, r".jpeg".data, r".jpg".data, r".ico".data]

/-- `verifyType` (src/parser.cpp lines 124-132): false iff some forbidden
substring occurs anywhere in the URL. -/
def verifyType (url : List Char) : Bool :=
  !(forbiddenTypes.any (fun t => containsSub t url))

/-- Allowlist `allowedDomains` of `verifyDomain` (src/parser.cpp lines 135-137). -/
def allowedDomains : List (List Char) :=
  [r".com".data, r".pk".data, r".edu".data, r".net".data, r".co".data, r".org".data, r".me".data]

/-- `hasSuffix` (src/parser.cpp lines 144-147). -/
def hasSuffix (str sfx : List Char) : Bool :=
  sfx.isSuffixOf str

/-- `verifyDomain` (src/parser.cpp lines 134-142). -/
def verifyDomain (url : List Char) : Bool :=
  allowedDomains.any (fun d => hasSuffix url d)

def mailtoStr : String := "mailto:"

/-- `verifyUrl` (src/parser.cpp lines 115-122). -/
def verifyUrl (url : List Char) : Bool :=
  if url.isEmpty then false
  else
    let urlDomain := getHostnameFromUrl url
    if urlDomain.isEmpty || !(verifyDomain urlDomain) then false
    else if !(verifyType url) then false
    else if containsSub mailtoStr.data url then false
    else true

def href1Str : String := "href=\""
def href2Str : String := "href = \""

/-- The four anchor markers `urlStart` of `extractUrls` (src/parser.cpp line 94). -/
def urlStart : List (List Char) :=
  [href1Str.data, href2Str.data, httpStr.data, httpsStr.data]

/-- One marker scanning pass of `extractUrls` (src/parser.cpp lines 98-111),
with explicit fuel. Each step finds the next marker occurrence, cuts the
substring up to the first terminator character, and resumes the scan at that
terminator; when no terminator follows, the whole pass is abandoned (`break`). -/
def scanPassAux (marker : List Char) : Nat → List Char → List (List Char)
  | 0, _ => []
  | fuel + 1, text =>
    match splitFirst marker text with
    | none => []
    | some rest =>
      let url := rest.takeWhile (fun c => !(isTerm c))
      let after := rest.dropWhile (fun c => !(isTerm c))
      match after with
      | [] => []
      | _ :: _ => url :: scanPassAux marker fuel after

/-- A full marker pass; fuel `text.length` is enough because every step
consumes at least the (non-empty) marker. -/
def scanPass (marker text : List Char) : List (List Char) :=
  scanPassAux marker text.length text

/-- `extractUrls` (src/parser.cpp lines 92-113): normalize, run the four marker
passes in order, keep the substrings accepted by `verifyUrl`, and split each
into `(hostname, path)`. -/
def extractUrls (httpText : List Char) : List (List Char × List Char) :=
  ((urlStart.map (fun m => scanPass m (reformatHttpResponse httpText))).flatten).filterMap
    (fun url => if verifyUrl url then some (getHostnameFromUrl url, getHostPathFromUrl url) else none)

/-! ### Per-site crawler (src/clientSocket.cpp) -/

/-- Outcome of one page fetch, as determined by the network environment:
socket creation / connection failure, send failure, or a received response
(`time` is the instant of the first received chunk; `body` is the accumulated
response text, empty when the peer closed before sending anything). -/
inductive FetchOutcome where
  | connectFail
  | sendFail
  | got (time : ℚ) (body : List Char)

/-- `SiteStats` (src/clientSocket.h lines 39-47). `discoveredPages` holds
`(url, responseTime)` pairs in insertion order. -/
structure SiteStats where
  hostname : List Char
  averageResponseTime : ℚ
  minResponseTime : ℚ
  maxResponseTime : ℚ
  numberOfPagesFailed : Nat
  linkedSites : List (List Char)
  discoveredPages : List (List Char × ℚ)

/-- Private per-crawl state of `ClientSocket` (src/clientSocket.h lines 65-67)
plus ghost instrumentation: `dequeued` counts dequeued page tasks and
`enqueuedPages` logs every path ever pushed into the page frontier. -/
structure CrawlState where
  pendingPages : List (List Char)
  discoveredPages : List (List Char)
  discoveredLinkedSites : List (List Char)
  stats : SiteStats
  dequeued : Nat
  enqueuedPages : List (List Char)

/-- Constructor state (src/clientSocket.cpp lines 28-39): the root path is
enqueued and marked discovered; all statistics fields start at their
sentinels. -/
def initCrawlState (hostname : List Char) : CrawlState :=
  { pendingPages := [slashStr.data]
    discoveredPages := [slashStr.data]
    discoveredLinkedSites := []
    stats :=
      { hostname := hostname
        averageResponseTime := -1
        minResponseTime := -1
        maxResponseTime := -1
        numberOfPagesFailed := 0
        linkedSites := []
        discoveredPages := [] }
    dequeued := 0
    enqueuedPages := [slashStr.data] }

/-- Processing of one extracted link (src/clientSocket.cpp lines 148-163):
an empty or same-host hostname is an internal link whose path is enqueued if
not yet discovered; otherwise the hostname is recorded once as a linked site. -/
def processLink (hostname : List Char) (st : CrawlState) (link : List Char × List Char) : CrawlState :=
  if link.1 = [] ∨ link.1 = hostname then
    if link.2 ∈ st.discoveredPages then st
    else
      { st with pendingPages := st.pendingPages ++ [link.2]
                discoveredPages := link.2 :: st.discoveredPages
                enqueuedPages := st.enqueuedPages ++ [link.2] }
  else
    if link.1 ∈ st.discoveredLinkedSites then st
    else
      { st with discoveredLinkedSites := link.1 :: st.discoveredLinkedSites
                stats := { st.stats with linkedSites := st.stats.linkedSites ++ [link.1] } }

/-- Body of one iteration of the page loop (src/clientSocket.cpp lines
100-163), after the path has been dequeued. A connect or send failure
increments `numberOfPagesFailed`; otherwise the page is recorded with the time
of the first chunk (`-1` when nothing was received) and the extracted links
are folded into the state. -/
def crawlIter (hostname : List Char) (env : List Char → FetchOutcome) (path : List Char)
    (st : CrawlState) : CrawlState :=
  match env path with
  | FetchOutcome.connectFail =>
    { st with stats := { st.stats with numberOfPagesFailed := st.stats.numberOfPagesFailed + 1 } }
  | FetchOutcome.sendFail =>
    { st with stats := { st.stats with numberOfPagesFailed := st.stats.numberOfPagesFailed + 1 } }
  | FetchOutcome.got time body =>
    (extractUrls body).foldl (processLink hostname)
      { st with stats :=
        { st.stats with discoveredPages :=
            st.stats.discoveredPages ++ [(hostname ++ path, if body = [] then -1 else time)] } }

/-- The page loop of `startDiscovering` (src/clientSocket.cpp lines 94-164),
with explicit fuel. The guard is the source's verbatim condition: the frontier
is non-empty and (`pagesLimit == -1` or `(discoveredPages.getHead() ? 1 : 0) <
pagesLimit`). -/
def crawlLoop (hostname : List Char) (pagesLimit : Int) (env : List Char → FetchOutcome) :
    Nat → CrawlState → CrawlState
  | 0, st => st
  | fuel + 1, st =>
    match st.pendingPages with
    | [] => st
    | path :: rest =>
      if pagesLimit = -1 ∨ (if st.stats.discoveredPages = [] then (0 : Int) else 1) < pagesLimit then
        crawlLoop hostname pagesLimit env fuel
          (crawlIter hostname env path
            { st with pendingPages := rest, dequeued := st.dequeued + 1 })
      else st

/-- The statistics loop of `startDiscovering` (src/clientSocket.cpp lines
167-183): accumulate total and count and update the min/max fields over every
recorded page entry. -/
def statsFold : List (List Char × ℚ) → ℚ → Nat → ℚ → ℚ → ℚ × Nat × ℚ × ℚ
  | [], total, count, mn, mx => (total, count, mn, mx)
  | p :: rest, total, count, mn, mx =>
    statsFold rest (total + p.2) (count + 1)
      (if mn < 0 ∨ p.2 < mn then p.2 else mn)
      (if mx < 0 ∨ p.2 > mx then p.2 else mx)

/-- `ClientSocket::startDiscovering` (src/clientSocket.cpp lines 89-190):
run the page loop from the constructor state, then finalize min/max and
average (`averageResponseTime` is assigned only when at least one page entry
was recorded). -/
def startDiscovering (hostname : List Char) (pagesLimit : Int) (env : List Char → FetchOutcome)
    (fuel : Nat) : SiteStats :=
  let st := crawlLoop hostname pagesLimit env fuel (initCrawlState hostname)
  let r := statsFold st.stats.discoveredPages 0 0 st.stats.minResponseTime st.stats.maxResponseTime
  { st.stats with
    minResponseTime := r.2.2.1
    maxResponseTime := r.2.2.2
    averageResponseTime := if 0 < r.2.1 then r.1 / (r.2.1 : ℚ) else st.stats.averageResponseTime }

/-! ### Crawl scheduler (src/crawler.cpp) -/

/-- Scheduler-shared state `CrawlerState` (src/crawler.cpp lines 54-61) plus
ghost instrumentation: `enqueuedLog` records every hostname ever pushed into
the cross-site frontier, in order. -/
structure CrawlerState where
  threadsCount : Int
  pendingSites : List (List Char × Int)
  discoveredSites : List (List Char)
  enqueuedLog : List (List Char)

def emptyCrawlerState : CrawlerState :=
  { threadsCount := 0, pendingSites := [], discoveredSites := [], enqueuedLog := [] }

/-- One step of `initialize` (src/crawler.cpp lines 140-146): the URL's
hostname is pushed into the frontier at depth 0 and marked discovered, with no
membership check before the push. -/
def initStep (st : CrawlerState) (url : List Char) : CrawlerState :=
  let hostname := getHostnameFromUrl url
  { st with pendingSites := st.pendingSites ++ [(hostname, 0)]
            discoveredSites :=
              if hostname ∈ st.discoveredSites then st.discoveredSites
              else hostname :: st.discoveredSites
            enqueuedLog := st.enqueuedLog ++ [hostname] }

/-- `initialize` (src/crawler.cpp lines 139-147). -/
def initSites (startUrls : List (List Char)) : CrawlerState :=
  startUrls.foldl initStep emptyCrawlerState

/-- The linked-sites fold of `startCrawler` (src/crawler.cpp lines 194-204):
walk the crawl's linked sites while fewer than `linkedSitesLimit` new sites
have been admitted; a site not yet discovered is enqueued at depth
`currentDepth + 1` and marked discovered. -/
def foldSitesGo (currentDepth : Int) (linkedSitesLimit : Nat) :
    List (List Char) → Nat → CrawlerState → CrawlerState
  | [], _, st => st
  | site :: rest, linkedCount, st =>
    if linkedCount < linkedSitesLimit then
      if site ∈ st.discoveredSites then
        foldSitesGo currentDepth linkedSitesLimit rest linkedCount st
      else
        foldSitesGo currentDepth linkedSitesLimit rest (linkedCount + 1)
          { st with pendingSites := st.pendingSites ++ [(site, currentDepth + 1)]
                    discoveredSites := site :: st.discoveredSites
                    enqueuedLog := st.enqueuedLog ++ [site] }
    else st

/-- A worker execution `startCrawler` (src/crawler.cpp lines 182-214). The
crawl outcome is either a `SiteStats` or an error thrown while crawling; on
success and when below the depth limit the linked sites are folded into the
frontier, on error the shared state is left untouched; in both cases the
`ThreadGuard` destructor (src/crawler.cpp lines 73-77) decrements the active
thread count exactly once on scope exit. -/
def startCrawler (linkedSitesLimit : Nat) (depthLimit : Int) (currentDepth : Int)
    (outcome : Except Unit SiteStats) (st : CrawlerState) : CrawlerState :=
  let st1 :=
    match outcome with
    | Except.ok stats =>
      if currentDepth < depthLimit then
        foldSitesGo currentDepth linkedSitesLimit stats.linkedSites 0 st
      else st
    | Except.error _ => st
  { st1 with threadsCount := st1.threadsCount - 1 }

/-- A whole run's worth of worker completions applied in sequence (the mutex
in src/crawler.cpp serializes them, so a run is some sequence of
`startCrawler` state transitions). -/
def runWorkers (linkedSitesLimit : Nat) (depthLimit : Int) :
    List (Except Unit SiteStats × Int) → CrawlerState → CrawlerState
  | [], st => st
  | (outcome, depth) :: rest, st =>
    runWorkers linkedSitesLimit depthLimit rest
      (startCrawler linkedSitesLimit depthLimit depth outcome st)

/-! ### Document shapes for the link-extraction theorem -/

/-- The double-quote character. -/
def quoteChar : Char := Char.ofNat 34

/-- Text consisting of `href="`-anchored links: each block `(u, s)`
contributes the marker, the link text `u`, its closing quote, and following
junk `s`. -/
def docTail : List (List Char × List Char) → List Char
  | [] => []
  | (u, s) :: rest => href1Str.data ++ (u ++ quoteChar :: (s ++ docTail rest))

/-- Well-formedness of the blocks of a document: each link text is free of
terminator characters and each junk segment contains no `href="` marker. -/
def BlocksOk (blocks : List (List Char × List Char)) : Prop :=
  ∀ p ∈ blocks, (∀ c ∈ p.1, isTerm c = false) ∧ ¬ href1Str.data <:+: p.2

instance (blocks : List (List Char × List Char)) : Decidable (BlocksOk blocks) :=
  inferInstanceAs
    (Decidable (∀ p ∈ blocks, (∀ c ∈ p.1, isTerm c = false) ∧ ¬ href1Str.data <:+: p.2))

/-! ### Concrete inputs used by witnesses and counterexamples -/

def exComStr : String := "example.com"

def exCom : List Char := exComStr.data

def httpExComStr : String := "http://example.com"

/-- Root page body linking to three internal pages. -/
def bodyRootStr : String := "href=\"example.com/a\" href=\"example.com/b\" href=\"example.com/c\" "

/-- Root page body linking to one internal page. -/
def bodyAStr : String := "href=\"example.com/a\" "

def xStr : String := "x"

def slashAStr : String := "/a"

/-- Environment of the page-limit scenario: the root links to `/a`, `/b`,
`/c`; every page responds. -/
def envC1 : List Char → FetchOutcome := fun p =>
  if p = slashStr.data then FetchOutcome.got 5 bodyRootStr.data
  else FetchOutcome.got 7 xStr.data

/-- Environment in which every connection is accepted and closed before any
byte is sent. -/
def envZero : List Char → FetchOutcome := fun _ => FetchOutcome.got 0 []

/-- Environment in which the root page succeeds in 3 ms and links to `/a`,
which then receives a zero-byte response. -/
def env3 : List Char → FetchOutcome := fun p =>
  if p = slashStr.data then FetchOutcome.got 3 bodyAStr.data
  else FetchOutcome.got 9 []

def c10TextStr : String := "href=\"abc"

def abcStr : String := "abc"

def w5u1Str : String := "example.com/a"

def w5u2Str : String := "bad.exe"

def w5u3Str : String := "example.com/x.pdf"

def w5sepStr : String := "page top "

def w5s1Str : String := " mid1 "

def w5s2Str : String := " mid2 "

def w5s3Str : String := " tail"

def w5blocks : List (List Char × List Char) :=
  [(w5u1Str.data, w5s1Str.data), (w5u2Str.data, w5s2Str.data), (w5u3Str.data, w5s3Str.data)]

def w5text : List Char := w5sepStr.data ++ docTail w5blocks

/-! ### Normalization lemmas -/

theorem mapChar_toLower_fix : ∀ c ∈ allowedChrs, mapChar c.toLower = some c.toLower := by
  decide

theorem mapChar_fix {c c' : Char} (h : mapChar c = some c') : mapChar c' = some c' := by
  by_cases h10 : c = Char.ofNat 10
  · rw [mapChar, if_pos h10] at h
    injection h with h
    subst h
    decide
  · by_cases hmem : c ∈ allowedChrs
    · rw [mapChar, if_neg h10, if_pos hmem] at h
      injection h with h
      subst h
      exact mapChar_toLower_fix c hmem
    · rw [mapChar, if_neg h10, if_neg hmem] at h
      exact absurd h (by simp)

theorem filterMap_mapChar_of_fix : ∀ l : List Char, (∀ c ∈ l, mapChar c = some c) →
    l.filterMap mapChar = l := by
  intro l
  induction l with
  | nil => intro _; rfl
  | cons a t ih =>
    intro hl
    rw [List.filterMap_cons, hl a (by simp), ih (fun c hc => hl c (by simp [hc]))]

theorem mem_reformat_fix {s : List Char} : ∀ c ∈ reformatHttpResponse s, mapChar c = some c := by
  intro c hc
  rw [reformatHttpResponse] at hc
  obtain ⟨a, _, hm⟩ := List.mem_filterMap.1 hc
  exact mapChar_fix hm

/-- C6. `reformatHttpResponse` (the spec's `normalize`) is idempotent: a
second application to its own output changes nothing. -/
theorem reformat_idempotent (s : List Char) :
    reformatHttpResponse (reformatHttpResponse s) = reformatHttpResponse s :=
  filterMap_mapChar_of_fix _ (fun _ hc => mem_reformat_fix _ hc)

/-! ### Occurrence lemmas for the scanning passes -/

theorem splitFirst_eq_none {m : List Char} : ∀ {l : List Char}, ¬ m <:+: l →
    splitFirst m l = none := by
  intro l
  induction l with
  | nil => intro _; rfl
  | cons c cs ih =>
    intro h
    rw [List.infix_cons_iff] at h
    push_neg at h
    rw [splitFirst, if_neg, ih h.2]
    intro hp
    exact h.1 (List.isPrefixOf_iff_prefix.1 hp)

theorem splitFirst_some_infix {m : List Char} : ∀ {l r : List Char},
    splitFirst m l = some r → m <:+: l := by
  intro l
  induction l with
  | nil => intro r h; exact absurd h (by simp [splitFirst])
  | cons c cs ih =>
    intro r h
    rw [splitFirst] at h
    split at h
    · exact (List.isPrefixOf_iff_prefix.1 (by assumption)).isInfix
    · exact (ih h).trans (List.suffix_cons c cs).isInfix

theorem splitFirst_append {m : List Char} (hne : m ≠ [])
    (hborder : ∀ k, k < m.length → 0 < k → ¬ m.drop k <+: m) :
    ∀ (sep rest : List Char), ¬ m <:+: sep →
      splitFirst m (sep ++ (m ++ rest)) = some rest := by
  intro sep
  induction sep with
  | nil =>
    intro rest _
    match hm : m, hne with
    | a :: as, _ =>
      show splitFirst (a :: as) ((a :: as) ++ rest) = some rest
      rw [show (a :: as) ++ rest = a :: (as ++ rest) from rfl, splitFirst,
        if_pos (List.isPrefixOf_iff_prefix.2 (by exact List.prefix_append _ _))]
      exact congrArg some (List.drop_left (a :: as) rest)
  | cons c cs ih =>
    intro rest hsep
    rw [List.infix_cons_iff] at hsep
    push_neg at hsep
    show splitFirst m (c :: (cs ++ (m ++ rest))) = some rest
    rw [splitFirst, if_neg]
    · exact ih rest hsep.2
    · intro hp
      have hpre : m <+: (c :: cs) ++ (m ++ rest) := by
        have := List.isPrefixOf_iff_prefix.1 hp
        simpa using this
      rcases le_or_lt m.length (c :: cs).length with hle | hlt
      · exact hsep.1 (List.prefix_of_prefix_length_le hpre (List.prefix_append _ _) hle)
      · have heq : m = (c :: cs) ++ m.take (m.length - (c :: cs).length) := by
          have h1 := List.prefix_iff_eq_take.1 hpre
          rw [List.take_append_eq_append_take, List.take_of_length_le (le_of_lt hlt),
            List.take_append_eq_append_take, Nat.sub_eq_zero_of_le (Nat.sub_le _ _),
            List.take_zero, List.append_nil] at h1
          exact h1
        have h2 := congrArg (List.drop (c :: cs).length) heq
        rw [List.drop_left] at h2
        have hdrop : m.drop (c :: cs).length <+: m := by
          rw [h2]
          exact List.take_prefix _ _
        exact hborder (c :: cs).length hlt (by simp) hdrop

/-- C10. Inside `extractUrls`, a marker occurrence that is not followed by any
terminator character anywhere in the rest of the normalized text produces no
entry, and the remainder of that marker's scanning pass is abandoned entirely:
the whole pass returns no extraction at all, instead of taking the substring
to end-of-text. -/
theorem scanPass_no_terminator (marker text rest : List Char)
    (_hmarker : marker ∈ urlStart)
    (hsplit : splitFirst marker text = some rest)
    (hterm : ∀ c ∈ rest, isTerm c = false) :
    scanPass marker text = [] := by
  have hdrop : rest.dropWhile (fun c => !(isTerm c)) = [] :=
    List.dropWhile_eq_nil_iff.2 (fun x hx => by rw [hterm x hx]; rfl)
  rw [scanPass]
  cases hl : text.length with
  | zero => rfl
  | succ n =>
    rw [scanPassAux, hsplit]
    simp only [hdrop]

/-- Witness for C10 at the concrete text `href="abc`: the marker is found, no
terminator follows, and the pass yields nothing. -/
theorem scanPass_no_terminator_witness :
    href1Str.data ∈ urlStart ∧
    splitFirst href1Str.data c10TextStr.data = some abcStr.data ∧
    (∀ c ∈ abcStr.data, isTerm c = false) ∧
    scanPass href1Str.data c10TextStr.data = [] :=
  ⟨by decide, by decide, by decide,
    scanPass_no_terminator href1Str.data c10TextStr.data abcStr.data
      (by decide) (by decide) (by decide)⟩

theorem splitFirst_isSome_of_infix {m : List Char} (hne : m ≠ []) :
    ∀ {l : List Char}, m <:+: l → (splitFirst m l).isSome := by
  intro l
  induction l with
  | nil =>
    intro h
    have : m.length ≤ 0 := by simpa using h.length_le
    exact absurd (List.length_eq_zero.1 (Nat.le_zero.1 this)) hne
  | cons c cs ih =>
    intro h
    rw [splitFirst]
    split
    · simp
    · rename_i hnp
      rcases List.infix_cons_iff.1 h with hp | hi
      · exact absurd (List.isPrefixOf_iff_prefix.2 hp) hnp
      · exact ih hi

theorem containsSub_iff {needle hay : List Char} (hne : needle ≠ []) :
    containsSub needle hay = true ↔ needle <:+: hay := by
  rw [containsSub]
  constructor
  · intro h
    obtain ⟨r, hr⟩ := Option.isSome_iff_exists.1 h
    exact splitFirst_some_infix hr
  · exact splitFirst_isSome_of_infix hne

theorem verifyDomain_iff (u : List Char) :
    verifyDomain u = true ↔ ∃ d ∈ allowedDomains, d <:+ u := by
  rw [verifyDomain]
  simp only [List.any_eq_true, hasSuffix, List.isSuffixOf_iff_suffix]

theorem verifyType_false_iff (u : List Char) :
    verifyType u = false ↔ ∃ t ∈ forbiddenTypes, t <:+: u := by
  have hne : ∀ t ∈ forbiddenTypes, t ≠ [] := by decide
  rw [verifyType]
  simp only [Bool.not_eq_false', List.any_eq_true]
  constructor
  · rintro ⟨t, ht, hc⟩
    exact ⟨t, ht, (containsSub_iff (hne t ht)).1 hc⟩
  · rintro ⟨t, ht, hc⟩
    exact ⟨t, ht, (containsSub_iff (hne t ht)).2 hc⟩

/-- C7. Characterization of `verifyUrl` (the spec's `isValidLink`): it returns
false exactly when the URL is empty, its hostname is empty, the hostname ends
with none of the allowlisted domain suffixes, the URL contains a forbidden-type
substring anywhere, or the URL contains `mailto:`. -/
theorem verifyUrl_false_iff (url : List Char) :
    verifyUrl url = false ↔
      url = [] ∨ getHostnameFromUrl url = [] ∨
      (∀ d ∈ allowedDomains, ¬ d <:+ getHostnameFromUrl url) ∨
      (∃ t ∈ forbiddenTypes, t <:+: url) ∨
      mailtoStr.data <:+: url := by
  have hmne : mailtoStr.data ≠ [] := by decide
  rw [verifyUrl]
  by_cases h1 : url = []
  · subst h1
    simp
  · have h1' : url.isEmpty = false := by simpa [List.isEmpty_iff] using h1
    rw [if_neg (by simp [h1'])]
    by_cases h2 : getHostnameFromUrl url = []
    · rw [if_pos (by simp [h2])]
      exact iff_of_true rfl (Or.inr (Or.inl h2))
    · have h2' : (getHostnameFromUrl url).isEmpty = false := by
        simpa [List.isEmpty_iff] using h2
      by_cases h3 : verifyDomain (getHostnameFromUrl url) = true
      · rw [if_neg (by simp [h2', h3])]
        by_cases h4 : verifyType url = true
        · rw [if_neg (by simp [h4])]
          by_cases h5 : containsSub mailtoStr.data url = true
          · rw [if_pos h5]
            exact iff_of_true rfl
              (Or.inr (Or.inr (Or.inr (Or.inr ((containsSub_iff hmne).1 h5)))))
          · rw [if_neg h5]
            apply iff_of_false (by simp)
            push_neg
            refine ⟨h1, h2, ?_, ?_, ?_⟩
            · obtain ⟨d, hd, hs⟩ := (verifyDomain_iff _).1 h3
              exact ⟨d, hd, hs⟩
            · intro t ht hi
              exact absurd ((verifyType_false_iff url).2 ⟨t, ht, hi⟩) (by simp [h4])
            · intro hi
              exact h5 ((containsSub_iff hmne).2 hi)
        · rw [if_pos (by simp [Bool.eq_false_iff.2 h4])]
          exact iff_of_true rfl
            (Or.inr (Or.inr (Or.inr (Or.inl ((verifyType_false_iff url).1 (Bool.eq_false_iff.2 h4))))))
      · rw [if_pos (by simp [Bool.eq_false_iff.2 h3])]
        refine iff_of_true rfl (Or.inr (Or.inr (Or.inl ?_)))
        intro d hd hs
        exact h3 ((verifyDomain_iff _).2 ⟨d, hd, hs⟩)

/-- Witness for C7 at a concrete URL rejected for its domain. -/
theorem verifyUrl_false_iff_witness :
    verifyUrl w5u2Str.data = false ∧
    (w5u2Str.data = [] ∨ getHostnameFromUrl w5u2Str.data = [] ∨
      (∀ d ∈ allowedDomains, ¬ d <:+ getHostnameFromUrl w5u2Str.data) ∨
      (∃ t ∈ forbiddenTypes, t <:+: w5u2Str.data) ∨
      mailtoStr.data <:+: w5u2Str.data) :=
  ⟨by decide, (verifyUrl_false_iff w5u2Str.data).1 (by decide)⟩

/-! ### Claims settled by direct evaluation -/

/-- C1 (code bug). With `pagesLimit = 2` and a root page linking to three more
internal pages, the page loop dequeues and fetches 4 pages: the source
compares `(discoveredPages.getHead() ? 1 : 0)` — not the visited-page count —
against `pagesLimit` (src/clientSocket.cpp line 94), so the bound "at most
`pageLimit` pages are fetched" fails for every limit greater than 1, against
the source's own stated intent ("within the page limit, continue crawling",
header comment "maximum number of pages to crawl"). -/
theorem crawl_pagesLimit_bug :
    (crawlLoop exCom 2 envC1 10 (initCrawlState exCom)).dequeued = 4 ∧
    (crawlLoop exCom 2 envC1 10 (initCrawlState exCom)).stats.discoveredPages.length = 4 := by
  decide

/-- C2 counterexample. Against a server that accepts and closes immediately
(zero bytes), the crawl records the page in `discoveredPages` with
responseTime `-1` and `numberOfPagesFailed = 0`, not `1` as the claim
states. -/
theorem crawl_zero_byte_cex :
    (startDiscovering exCom (-1) envZero 1).discoveredPages = [(exCom ++ slashStr.data, -1)] ∧
    (startDiscovering exCom (-1) envZero 1).numberOfPagesFailed = 0 := by
  decide

/-- C3 counterexample. With one page succeeding in 3 ms and one zero-byte page
recorded with sentinel `-1`, the finalize loop lets the `-1` entry participate:
`minResponseTime` ends at `-1` (the claim's min over succeeded pages would be
3), even though a page succeeded. -/
theorem crawl_finalize_sentinel_cex :
    (startDiscovering exCom (-1) env3 5).discoveredPages =
      [(exCom ++ slashStr.data, 3), (exCom ++ slashAStr.data, -1)] ∧
    (startDiscovering exCom (-1) env3 5).numberOfPagesFailed = 0 ∧
    (startDiscovering exCom (-1) env3 5).minResponseTime = -1 ∧
    (startDiscovering exCom (-1) env3 5).maxResponseTime = 3 := by
  decide

/-- C8 counterexample. Two start URLs with the same hostname: `initialize`
enqueues the hostname into the cross-site frontier twice, because the seed
loop pushes without a membership check (src/crawler.cpp lines 139-147). -/
theorem initSites_duplicate_seed_cex :
    ¬ (initSites [exCom, httpExComStr.data]).enqueuedLog.Nodup := by
  decide

/-! ### Scheduler lemmas -/

theorem foldSitesGo_threadsCount (d : Int) (lsl : Nat) :
    ∀ (sites : List (List Char)) (cnt : Nat) (st : CrawlerState),
      (foldSitesGo d lsl sites cnt st).threadsCount = st.threadsCount := by
  intro sites
  induction sites with
  | nil => intro cnt st; rfl
  | cons s rest ih =>
    intro cnt st
    rw [foldSitesGo]
    split
    · split
      · exact ih cnt st
      · exact ih (cnt + 1) _
    · rfl

/-- C9. Every worker execution decrements the active-thread counter exactly
once — the `ThreadGuard` destructor runs on every exit path, including a crawl
that raised an error — and an error in a worker leaves the shared frontier and
discovered-site set untouched instead of propagating into the scheduler. -/
theorem worker_decrements_once (lsl : Nat) (dl d : Int) (outcome : Except Unit SiteStats)
    (st : CrawlerState) :
    (startCrawler lsl dl d outcome st).threadsCount = st.threadsCount - 1 ∧
    (startCrawler lsl dl d (Except.error ()) st).pendingSites = st.pendingSites ∧
    (startCrawler lsl dl d (Except.error ()) st).discoveredSites = st.discoveredSites := by
  refine ⟨?_, rfl, rfl⟩
  cases outcome with
  | error e => rfl
  | ok stats =>
    show (if d < dl then foldSitesGo d lsl stats.linkedSites 0 st else st).threadsCount - 1
        = st.threadsCount - 1
    split
    · rw [foldSitesGo_threadsCount]
    · rfl

/-! ### Page-loop invariants -/

theorem crawlLoop_pending_nil {h : List Char} {pl : Int} {env : List Char → FetchOutcome}
    {st : CrawlState} (hp : st.pendingPages = []) :
    ∀ fuel, crawlLoop h pl env fuel st = st := by
  intro fuel
  cases fuel with
  | zero => rfl
  | succ n => rw [crawlLoop, hp]

theorem extractUrls_nil : extractUrls [] = [] := rfl

theorem processLink_stats (h : List Char) (st : CrawlState) (link : List Char × List Char) :
    (processLink h st link).stats.numberOfPagesFailed = st.stats.numberOfPagesFailed ∧
    (processLink h st link).stats.discoveredPages = st.stats.discoveredPages ∧
    (processLink h st link).stats.minResponseTime = st.stats.minResponseTime ∧
    (processLink h st link).stats.maxResponseTime = st.stats.maxResponseTime ∧
    (processLink h st link).stats.averageResponseTime = st.stats.averageResponseTime ∧
    (processLink h st link).dequeued = st.dequeued := by
  rw [processLink]
  split_ifs <;> exact ⟨rfl, rfl, rfl, rfl, rfl, rfl⟩

theorem foldl_processLink_stats (h : List Char) :
    ∀ (links : List (List Char × List Char)) (st : CrawlState),
      (links.foldl (processLink h) st).stats.numberOfPagesFailed = st.stats.numberOfPagesFailed ∧
      (links.foldl (processLink h) st).stats.discoveredPages = st.stats.discoveredPages ∧
      (links.foldl (processLink h) st).stats.minResponseTime = st.stats.minResponseTime ∧
      (links.foldl (processLink h) st).stats.maxResponseTime = st.stats.maxResponseTime ∧
      (links.foldl (processLink h) st).stats.averageResponseTime = st.stats.averageResponseTime ∧
      (links.foldl (processLink h) st).dequeued = st.dequeued := by
  intro links
  induction links with
  | nil => intro st; exact ⟨rfl, rfl, rfl, rfl, rfl, rfl⟩
  | cons l rest ih =>
    intro st
    rw [List.foldl_cons]
    obtain ⟨a1, a2, a3, a4, a5, a6⟩ := processLink_stats h st l
    obtain ⟨b1, b2, b3, b4, b5, b6⟩ := ih (processLink h st l)
    exact ⟨b1.trans a1, b2.trans a2, b3.trans a3, b4.trans a4, b5.trans a5, b6.trans a6⟩

theorem crawlIter_stats (h : List Char) (env : List Char → FetchOutcome) (path : List Char)
    (st : CrawlState) :
    (crawlIter h env path st).stats.numberOfPagesFailed
        + (crawlIter h env path st).stats.discoveredPages.length
      = st.stats.numberOfPagesFailed + st.stats.discoveredPages.length + 1 ∧
    (crawlIter h env path st).stats.minResponseTime = st.stats.minResponseTime ∧
    (crawlIter h env path st).stats.maxResponseTime = st.stats.maxResponseTime ∧
    (crawlIter h env path st).stats.averageResponseTime = st.stats.averageResponseTime ∧
    (crawlIter h env path st).dequeued = st.dequeued := by
  rw [crawlIter]
  cases env path with
  | connectFail =>
    refine ⟨?_, rfl, rfl, rfl, rfl⟩
    show st.stats.numberOfPagesFailed + 1 + st.stats.discoveredPages.length = _
    omega
  | sendFail =>
    refine ⟨?_, rfl, rfl, rfl, rfl⟩
    show st.stats.numberOfPagesFailed + 1 + st.stats.discoveredPages.length = _
    omega
  | got time body =>
    obtain ⟨a1, a2, a3, a4, a5, a6⟩ := foldl_processLink_stats h (extractUrls body)
      { st with stats :=
        { st.stats with discoveredPages :=
            st.stats.discoveredPages ++ [(h ++ path, if body = [] then -1 else time)] } }
    refine ⟨?_, a3, a4, a5, a6⟩
    show ((extractUrls body).foldl (processLink h)
        { st with stats :=
          { st.stats with discoveredPages :=
              st.stats.discoveredPages ++ [(h ++ path, if body = [] then -1 else time)] } }).stats.numberOfPagesFailed
        + ((extractUrls body).foldl (processLink h)
        { st with stats :=
          { st.stats with discoveredPages :=
              st.stats.discoveredPages ++ [(h ++ path, if body = [] then -1 else time)] } }).stats.discoveredPages.length
      = st.stats.numberOfPagesFailed + st.stats.discoveredPages.length + 1
    rw [a1, a2]
    show st.stats.numberOfPagesFailed
        + (st.stats.discoveredPages ++ [(h ++ path, if body = [] then -1 else time)]).length
      = st.stats.numberOfPagesFailed + st.stats.discoveredPages.length + 1
    rw [List.length_append]
    rfl

theorem crawlLoop_acc (h : List Char) (pl : Int) (env : List Char → FetchOutcome) :
    ∀ (fuel : Nat) (st : CrawlState),
      st.stats.numberOfPagesFailed + st.stats.discoveredPages.length = st.dequeued →
      (crawlLoop h pl env fuel st).stats.numberOfPagesFailed
          + (crawlLoop h pl env fuel st).stats.discoveredPages.length
        = (crawlLoop h pl env fuel st).dequeued := by
  intro fuel
  induction fuel with
  | zero => intro st hst; exact hst
  | succ n ih =>
    intro st hst
    rw [crawlLoop]
    cases hp : st.pendingPages with
    | nil => simp only [hp]; exact hst
    | cons path rest =>
      simp only [hp]
      by_cases hcond : pl = -1 ∨ (if st.stats.discoveredPages = [] then (0 : Int) else 1) < pl
      · rw [if_pos hcond]
        apply ih
        obtain ⟨hacc, _, _, _, hdq⟩ :=
          crawlIter_stats h env path { st with pendingPages := rest, dequeued := st.dequeued + 1 }
        rw [hacc, hdq]
        show st.stats.numberOfPagesFailed + st.stats.discoveredPages.length + 1 = st.dequeued + 1
        omega
      · rw [if_neg hcond]
        exact hst

theorem crawlLoop_const (h : List Char) (pl : Int) (env : List Char → FetchOutcome) :
    ∀ (fuel : Nat) (st : CrawlState),
      (crawlLoop h pl env fuel st).stats.minResponseTime = st.stats.minResponseTime ∧
      (crawlLoop h pl env fuel st).stats.maxResponseTime = st.stats.maxResponseTime ∧
      (crawlLoop h pl env fuel st).stats.averageResponseTime = st.stats.averageResponseTime := by
  intro fuel
  induction fuel with
  | zero => intro st; exact ⟨rfl, rfl, rfl⟩
  | succ n ih =>
    intro st
    rw [crawlLoop]
    cases hp : st.pendingPages with
    | nil => simp [hp]
    | cons path rest =>
      simp only [hp]
      by_cases hcond : pl = -1 ∨ (if st.stats.discoveredPages = [] then (0 : Int) else 1) < pl
      · rw [if_pos hcond]
        obtain ⟨_, m1, m2, m3, _⟩ :=
          crawlIter_stats h env path { st with pendingPages := rest, dequeued := st.dequeued + 1 }
        obtain ⟨l1, l2, l3⟩ :=
          ih (crawlIter h env path { st with pendingPages := rest, dequeued := st.dequeued + 1 })
        exact ⟨l1.trans m1, l2.trans m2, l3.trans m3⟩
      · rw [if_neg hcond]
        exact ⟨rfl, rfl, rfl⟩

/-- C4. Accounting invariant of the page loop: at every point of the crawl (any
fuel), `numberOfPagesFailed` plus the number of recorded page entries equals
the number of page tasks dequeued from the page frontier so far — every
dequeued path yields exactly one failure increment or one page record. -/
theorem crawl_dequeue_accounting (h : List Char) (pl : Int) (env : List Char → FetchOutcome)
    (fuel : Nat) :
    (crawlLoop h pl env fuel (initCrawlState h)).stats.numberOfPagesFailed
        + (crawlLoop h pl env fuel (initCrawlState h)).stats.discoveredPages.length
      = (crawlLoop h pl env fuel (initCrawlState h)).dequeued :=
  crawlLoop_acc h pl env fuel (initCrawlState h) rfl

/-! ### Finalization lemmas -/

theorem statsFold_spec :
    ∀ (l : List (List Char × ℚ)) (total : ℚ) (count : Nat) (mn mx : ℚ),
      (statsFold l total count mn mx).1 = total + (l.map Prod.snd).sum ∧
      (statsFold l total count mn mx).2.1 = count + l.length := by
  intro l
  induction l with
  | nil =>
    intro total count mn mx
    constructor <;> simp [statsFold]
  | cons p rest ih =>
    intro total count mn mx
    rw [statsFold]
    obtain ⟨h1, h2⟩ := ih (total + p.2) (count + 1)
      (if mn < 0 ∨ p.2 < mn then p.2 else mn) (if mx < 0 ∨ p.2 > mx then p.2 else mx)
    constructor
    · rw [h1, List.map_cons, List.sum_cons]
      ring
    · rw [h2, List.length_cons]
      omega

/-- C2 (amended). Against a server that accepts the connection and closes it
with zero bytes received, the crawl yields exactly one page record with
responseTime `-1`, but the page counts as recorded, not failed:
`numberOfPagesFailed = 0` (the source adds the page to `discoveredPages`
unconditionally after the receive loop), and all three response-time
aggregates stay at the `-1` sentinel. -/
theorem crawl_zero_byte_sentinel (h : List Char) (t : ℚ) (fuel : Nat) (hf : 1 ≤ fuel) :
    (startDiscovering h (-1) (fun _ => FetchOutcome.got t []) fuel).discoveredPages
        = [(h ++ slashStr.data, -1)] ∧
    (startDiscovering h (-1) (fun _ => FetchOutcome.got t []) fuel).numberOfPagesFailed = 0 ∧
    (startDiscovering h (-1) (fun _ => FetchOutcome.got t []) fuel).minResponseTime = -1 ∧
    (startDiscovering h (-1) (fun _ => FetchOutcome.got t []) fuel).maxResponseTime = -1 ∧
    (startDiscovering h (-1) (fun _ => FetchOutcome.got t []) fuel).averageResponseTime = -1 := by
  obtain ⟨n, rfl⟩ : ∃ n, fuel = n + 1 := ⟨fuel - 1, by omega⟩
  have hloop : crawlLoop h (-1) (fun _ => FetchOutcome.got t []) (n + 1) (initCrawlState h) =
      ⟨[], [slashStr.data], [], ⟨h, -1, -1, -1, 0, [], [(h ++ slashStr.data, -1)]⟩, 1,
        [slashStr.data]⟩ := by
    have hstep : crawlLoop h (-1) (fun _ => FetchOutcome.got t []) (n + 1) (initCrawlState h) =
        crawlLoop h (-1) (fun _ => FetchOutcome.got t []) n
          ⟨[], [slashStr.data], [], ⟨h, -1, -1, -1, 0, [], [(h ++ slashStr.data, -1)]⟩, 1,
            [slashStr.data]⟩ := rfl
    rw [hstep, crawlLoop_pending_nil rfl]
  rw [startDiscovering, hloop]
  show ((⟨h, -1, -1, -1, 0, [], [(h ++ slashStr.data, -1)]⟩ : SiteStats).discoveredPages
        = [(h ++ slashStr.data, -1)]) ∧ _
  refine ⟨rfl, rfl, ?_, ?_, ?_⟩ <;> simp [statsFold]

/-- Witness for C2's amended theorem at a concrete hostname and fuel. -/
theorem crawl_zero_byte_sentinel_witness :
    (1 : Nat) ≤ 1 ∧
    (startDiscovering exCom (-1) (fun _ => FetchOutcome.got 0 []) 1).numberOfPagesFailed = 0 :=
  ⟨le_refl 1, (crawl_zero_byte_sentinel exCom 0 1 (le_refl 1)).2.1⟩

/-- C3 (amended). The finalize step computes `averageResponseTime` over all
recorded page entries — including zero-byte pages recorded with the `-1`
sentinel, which therefore do enter the average (and can drag `minResponseTime`
to `-1`); connect/send failures contribute only to `numberOfPagesFailed` and
never produce an entry; all three aggregate fields remain `-1` when no page
entry was recorded at all. -/
theorem crawl_finalize_over_recorded (h : List Char) (pl : Int) (env : List Char → FetchOutcome)
    (fuel : Nat) :
    (startDiscovering h pl env fuel).averageResponseTime =
      (if (crawlLoop h pl env fuel (initCrawlState h)).stats.discoveredPages = [] then (-1 : ℚ)
       else ((crawlLoop h pl env fuel (initCrawlState h)).stats.discoveredPages.map Prod.snd).sum
            / ((crawlLoop h pl env fuel (initCrawlState h)).stats.discoveredPages.length : ℚ)) ∧
    ((crawlLoop h pl env fuel (initCrawlState h)).stats.discoveredPages = [] →
      (startDiscovering h pl env fuel).minResponseTime = -1 ∧
      (startDiscovering h pl env fuel).maxResponseTime = -1) := by
  obtain ⟨c1, c2, c3⟩ := crawlLoop_const h pl env fuel (initCrawlState h)
  obtain ⟨s1, s2⟩ := statsFold_spec
    (crawlLoop h pl env fuel (initCrawlState h)).stats.discoveredPages 0 0
    (crawlLoop h pl env fuel (initCrawlState h)).stats.minResponseTime
    (crawlLoop h pl env fuel (initCrawlState h)).stats.maxResponseTime
  constructor
  · rw [startDiscovering]
    show (if 0 < _ then _ else _) = _
    by_cases hnil : (crawlLoop h pl env fuel (initCrawlState h)).stats.discoveredPages = []
    · rw [if_pos hnil, if_neg, c3]
      · rfl
      · rw [s2, hnil]
        simp
    · rw [if_neg hnil, if_pos, s1, s2]
      · simp
      · rw [s2]
        have := List.length_pos.2 hnil
        omega
  · intro hnil
    rw [startDiscovering]
    constructor
    · show (statsFold _ 0 0 _ _).2.2.1 = -1
      rw [hnil]
      rw [statsFold, c1]
      rfl
    · show (statsFold _ 0 0 _ _).2.2.2 = -1
      rw [hnil]
      rw [statsFold, c2]
      rfl

/-- Witness for C3's amended theorem: with no fuel nothing is recorded and all
aggregates stay at the sentinel. -/
theorem crawl_finalize_over_recorded_witness :
    (startDiscovering exCom (-1) envZero 0).minResponseTime = -1 :=
  ((crawl_finalize_over_recorded exCom (-1) envZero 0).2 (by decide)).1

/-! ### Link-extraction over well-formed documents -/

theorem takeWhile_append_not (p : Char → Bool) :
    ∀ (u : List Char) (x : Char) (t : List Char), (∀ c ∈ u, p c = true) → p x = false →
      (u ++ x :: t).takeWhile p = u ∧ (u ++ x :: t).dropWhile p = x :: t := by
  intro u
  induction u with
  | nil =>
    intro x t _ hx
    constructor
    · simp [List.takeWhile_cons, hx]
    · simp [List.dropWhile_cons, hx]
  | cons a u ih =>
    intro x t hu hx
    have ha : p a = true := hu a (by simp)
    obtain ⟨h1, h2⟩ := ih x t (fun c hc => hu c (by simp [hc])) hx
    constructor
    · simp [List.takeWhile_cons, ha, h1]
    · simp [List.dropWhile_cons, ha, h2]

theorem href1_not_infix_quote_cons {s : List Char} (h : ¬ href1Str.data <:+: s) :
    ¬ href1Str.data <:+: quoteChar :: s := by
  intro hinf
  rcases List.infix_cons_iff.1 hinf with hpre | hinf2
  · obtain ⟨t, ht⟩ := hpre
    rw [show href1Str.data = 'h' :: ("ref=".data ++ [quoteChar]) from rfl, List.cons_append] at ht
    injection ht with h1 _
    exact absurd h1 (by decide)
  · exact h hinf2

theorem scanPass_eq_nil {m text : List Char} (h : ¬ m <:+: text) : scanPass m text = [] := by
  rw [scanPass]
  cases hl : text.length with
  | zero => rfl
  | succ n => rw [scanPassAux, splitFirst_eq_none h]

theorem scanPassAux_doc :
    ∀ (blocks : List (List Char × List Char)) (sep : List Char) (fuel : Nat),
      ¬ href1Str.data <:+: sep → BlocksOk blocks →
      (sep ++ docTail blocks).length ≤ fuel →
      scanPassAux href1Str.data fuel (sep ++ docTail blocks) = blocks.map Prod.fst := by
  have h6 : href1Str.data.length = 6 := by decide
  intro blocks
  induction blocks with
  | nil =>
    intro sep fuel hsep _ _
    rw [docTail, List.append_nil, List.map_nil]
    cases fuel with
    | zero => rfl
    | succ n => rw [scanPassAux, splitFirst_eq_none hsep]
  | cons b rest ih =>
    obtain ⟨u, s⟩ := b
    intro sep fuel hsep hok hfuel
    have hu : ∀ c ∈ u, isTerm c = false := (hok (u, s) (by simp)).1
    have hs : ¬ href1Str.data <:+: s := (hok (u, s) (by simp)).2
    have hok' : BlocksOk rest := fun p hp => hok p (by simp [hp])
    rw [docTail] at hfuel ⊢
    have hlen : (sep ++ (href1Str.data ++ (u ++ quoteChar :: (s ++ docTail rest)))).length
        = sep.length + (6 + (u.length + (1 + (s.length + (docTail rest).length)))) := by
      simp [List.length_append, h6]
      omega
    cases fuel with
    | zero =>
      exfalso
      rw [hlen] at hfuel
      omega
    | succ n =>
      have hsplit : splitFirst href1Str.data
          (sep ++ (href1Str.data ++ (u ++ quoteChar :: (s ++ docTail rest))))
          = some (u ++ quoteChar :: (s ++ docTail rest)) :=
        splitFirst_append (by decide) (by decide) sep (u ++ quoteChar :: (s ++ docTail rest)) hsep
      rw [scanPassAux, hsplit]
      obtain ⟨ht, hd⟩ := takeWhile_append_not (fun c => !(isTerm c)) u quoteChar
        (s ++ docTail rest) (fun c hc => by simp [hu c hc]) (by decide)
      simp only [ht, hd, List.map_cons]
      have hre : quoteChar :: (s ++ docTail rest) = (quoteChar :: s) ++ docTail rest := rfl
      rw [hre]
      rw [ih (quoteChar :: s) n (href1_not_infix_quote_cons hs) hok' ?_]
      rw [hlen] at hfuel
      simp only [List.length_append, List.length_cons]
      omega

/-- C5. Over any response text of the well-formed document shape — junk
containing no `href="` marker, alternating with marker-anchored links whose
text is terminator-free, already normalized, and containing no occurrence of
the other three markers — `extractUrls` returns exactly the links that pass
`verifyUrl`, in order, split into `(hostname, path)`: every valid `href="..."`
occurrence produces exactly one entry and no entry derives from an invalid
occurrence. -/
theorem extractUrls_href_blocks (blocks : List (List Char × List Char)) (sep : List Char)
    (hsep : ¬ href1Str.data <:+: sep)
    (hblocks : BlocksOk blocks)
    (hnorm : reformatHttpResponse (sep ++ docTail blocks) = sep ++ docTail blocks)
    (h2 : ¬ href2Str.data <:+: sep ++ docTail blocks)
    (h3 : ¬ httpStr.data <:+: sep ++ docTail blocks)
    (h4 : ¬ httpsStr.data <:+: sep ++ docTail blocks) :
    extractUrls (sep ++ docTail blocks)
      = (blocks.map Prod.fst).filterMap
          (fun url => if verifyUrl url then some (getHostnameFromUrl url, getHostPathFromUrl url)
                      else none) := by
  rw [extractUrls, hnorm]
  rw [show urlStart = [href1Str.data, href2Str.data, httpStr.data, httpsStr.data] from rfl]
  simp only [List.map_cons, List.map_nil, List.flatten_cons, List.flatten_nil]
  rw [scanPass_eq_nil h2, scanPass_eq_nil h3, scanPass_eq_nil h4]
  simp only [List.append_nil]
  rw [show scanPass href1Str.data (sep ++ docTail blocks)
      = scanPassAux href1Str.data (sep ++ docTail blocks).length (sep ++ docTail blocks) from rfl]
  rw [scanPassAux_doc blocks sep _ hsep hblocks (le_refl _)]

set_option maxRecDepth 100000 in
/-- Witness for C5 on a concrete three-link document: one valid link, one with
a disallowed domain, one with a forbidden extension. -/
theorem extractUrls_href_blocks_witness :
    (¬ href1Str.data <:+: w5sepStr.data) ∧ BlocksOk w5blocks ∧
    reformatHttpResponse w5text = w5text ∧
    extractUrls w5text
      = (w5blocks.map Prod.fst).filterMap
          (fun url => if verifyUrl url then some (getHostnameFromUrl url, getHostPathFromUrl url)
                      else none) :=
  ⟨by decide, by decide, by decide,
    extractUrls_href_blocks w5blocks w5sepStr.data (by decide) (by decide) (by decide)
      (by decide) (by decide) (by decide)⟩

/-! ### Dedup invariants -/

theorem initStep_log (st : CrawlerState) (url : List Char) :
    (initStep st url).enqueuedLog = st.enqueuedLog ++ [getHostnameFromUrl url] ∧
    (∀ x ∈ st.discoveredSites, x ∈ (initStep st url).discoveredSites) ∧
    getHostnameFromUrl url ∈ (initStep st url).discoveredSites := by
  refine ⟨rfl, ?_, ?_⟩
  · intro x hx
    show x ∈ (if getHostnameFromUrl url ∈ st.discoveredSites then st.discoveredSites
              else getHostnameFromUrl url :: st.discoveredSites)
    by_cases hm : getHostnameFromUrl url ∈ st.discoveredSites
    · rw [if_pos hm]; exact hx
    · rw [if_neg hm]; exact List.mem_cons_of_mem _ hx
  · show getHostnameFromUrl url ∈ (if getHostnameFromUrl url ∈ st.discoveredSites
        then st.discoveredSites else getHostnameFromUrl url :: st.discoveredSites)
    by_cases hm : getHostnameFromUrl url ∈ st.discoveredSites
    · rw [if_pos hm]; exact hm
    · rw [if_neg hm]; exact List.mem_cons_self _ _

theorem initFold_spec : ∀ (seeds : List (List Char)) (st : CrawlerState),
    (seeds.foldl initStep st).enqueuedLog = st.enqueuedLog ++ seeds.map getHostnameFromUrl ∧
    (∀ x ∈ st.discoveredSites, x ∈ (seeds.foldl initStep st).discoveredSites) ∧
    (∀ x ∈ seeds.map getHostnameFromUrl, x ∈ (seeds.foldl initStep st).discoveredSites) := by
  intro seeds
  induction seeds with
  | nil =>
    intro st
    exact ⟨(List.append_nil _).symm, fun x hx => hx, by simp⟩
  | cons u rest ih =>
    intro st
    rw [List.foldl_cons, List.map_cons]
    obtain ⟨a1, a2, a3⟩ := initStep_log st u
    obtain ⟨b1, b2, b3⟩ := ih (initStep st u)
    refine ⟨?_, ?_, ?_⟩
    · rw [b1, a1, List.append_assoc]
      rfl
    · intro x hx
      exact b2 x (a2 x hx)
    · intro x hx
      rcases List.mem_cons.1 hx with rfl | hx2
      · exact b2 _ a3
      · exact b3 x hx2

theorem foldSitesGo_inv (d : Int) (lsl : Nat) :
    ∀ (sites : List (List Char)) (cnt : Nat) (st : CrawlerState),
      st.enqueuedLog.Nodup → (∀ x ∈ st.enqueuedLog, x ∈ st.discoveredSites) →
      (foldSitesGo d lsl sites cnt st).enqueuedLog.Nodup ∧
      ∀ x ∈ (foldSitesGo d lsl sites cnt st).enqueuedLog,
        x ∈ (foldSitesGo d lsl sites cnt st).discoveredSites := by
  intro sites
  induction sites with
  | nil => intro cnt st h1 h2; exact ⟨h1, h2⟩
  | cons site rest ih =>
    intro cnt st h1 h2
    rw [foldSitesGo]
    by_cases hcnt : cnt < lsl
    · rw [if_pos hcnt]
      by_cases hmem : site ∈ st.discoveredSites
      · rw [if_pos hmem]
        exact ih cnt st h1 h2
      · rw [if_neg hmem]
        apply ih
        · rw [List.nodup_append]
          refine ⟨h1, List.nodup_singleton _, ?_⟩
          intro x hx hx2
          rw [List.mem_singleton] at hx2
          subst hx2
          exact hmem (h2 x hx)
        · intro x hx
          rcases List.mem_append.1 hx with hx1 | hx1
          · exact List.mem_cons_of_mem _ (h2 x hx1)
          · rw [List.mem_singleton.1 hx1]
            exact List.mem_cons_self _ _
    · rw [if_neg hcnt]
      exact ⟨h1, h2⟩

theorem startCrawler_inv (lsl : Nat) (dl d : Int) (outcome : Except Unit SiteStats)
    (st : CrawlerState) (h1 : st.enqueuedLog.Nodup)
    (h2 : ∀ x ∈ st.enqueuedLog, x ∈ st.discoveredSites) :
    (startCrawler lsl dl d outcome st).enqueuedLog.Nodup ∧
    ∀ x ∈ (startCrawler lsl dl d outcome st).enqueuedLog,
      x ∈ (startCrawler lsl dl d outcome st).discoveredSites := by
  cases outcome with
  | error e => exact ⟨h1, h2⟩
  | ok stats =>
    show (if d < dl then foldSitesGo d lsl stats.linkedSites 0 st else st).enqueuedLog.Nodup ∧
      ∀ x ∈ (if d < dl then foldSitesGo d lsl stats.linkedSites 0 st else st).enqueuedLog,
        x ∈ (if d < dl then foldSitesGo d lsl stats.linkedSites 0 st else st).discoveredSites
    by_cases hd : d < dl
    · rw [if_pos hd]
      exact foldSitesGo_inv d lsl stats.linkedSites 0 st h1 h2
    · rw [if_neg hd]
      exact ⟨h1, h2⟩

theorem runWorkers_inv (lsl : Nat) (dl : Int) :
    ∀ (jobs : List (Except Unit SiteStats × Int)) (st : CrawlerState),
      st.enqueuedLog.Nodup → (∀ x ∈ st.enqueuedLog, x ∈ st.discoveredSites) →
      (runWorkers lsl dl jobs st).enqueuedLog.Nodup ∧
      ∀ x ∈ (runWorkers lsl dl jobs st).enqueuedLog,
        x ∈ (runWorkers lsl dl jobs st).discoveredSites := by
  intro jobs
  induction jobs with
  | nil => intro st h1 h2; exact ⟨h1, h2⟩
  | cons job rest ih =>
    obtain ⟨outcome, depth⟩ := job
    intro st h1 h2
    rw [runWorkers]
    obtain ⟨g1, g2⟩ := startCrawler_inv lsl dl depth outcome st h1 h2
    exact ih (startCrawler lsl dl depth outcome st) g1 g2

theorem processLink_pages_inv (h : List Char) (st : CrawlState) (link : List Char × List Char)
    (h1 : st.enqueuedPages.Nodup) (h2 : ∀ x ∈ st.enqueuedPages, x ∈ st.discoveredPages) :
    (processLink h st link).enqueuedPages.Nodup ∧
    ∀ x ∈ (processLink h st link).enqueuedPages, x ∈ (processLink h st link).discoveredPages := by
  rw [processLink]
  by_cases hint : link.1 = [] ∨ link.1 = h
  · rw [if_pos hint]
    by_cases hmem : link.2 ∈ st.discoveredPages
    · rw [if_pos hmem]
      exact ⟨h1, h2⟩
    · rw [if_neg hmem]
      constructor
      · rw [List.nodup_append]
        refine ⟨h1, List.nodup_singleton _, ?_⟩
        intro x hx hx2
        rw [List.mem_singleton] at hx2
        subst hx2
        exact hmem (h2 _ hx)
      · intro x hx
        rcases List.mem_append.1 hx with hx1 | hx1
        · exact List.mem_cons_of_mem _ (h2 x hx1)
        · rw [List.mem_singleton.1 hx1]
          exact List.mem_cons_self _ _
  · rw [if_neg hint]
    by_cases hmem : link.1 ∈ st.discoveredLinkedSites
    · rw [if_pos hmem]
      exact ⟨h1, h2⟩
    · rw [if_neg hmem]
      exact ⟨h1, h2⟩

theorem foldl_processLink_pages_inv (h : List Char) :
    ∀ (links : List (List Char × List Char)) (st : CrawlState),
      st.enqueuedPages.Nodup → (∀ x ∈ st.enqueuedPages, x ∈ st.discoveredPages) →
      (links.foldl (processLink h) st).enqueuedPages.Nodup ∧
      ∀ x ∈ (links.foldl (processLink h) st).enqueuedPages,
        x ∈ (links.foldl (processLink h) st).discoveredPages := by
  intro links
  induction links with
  | nil => intro st h1 h2; exact ⟨h1, h2⟩
  | cons l rest ih =>
    intro st h1 h2
    rw [List.foldl_cons]
    obtain ⟨g1, g2⟩ := processLink_pages_inv h st l h1 h2
    exact ih (processLink h st l) g1 g2

theorem crawlIter_pages_inv (h : List Char) (env : List Char → FetchOutcome) (path : List Char)
    (st : CrawlState) (h1 : st.enqueuedPages.Nodup)
    (h2 : ∀ x ∈ st.enqueuedPages, x ∈ st.discoveredPages) :
    (crawlIter h env path st).enqueuedPages.Nodup ∧
    ∀ x ∈ (crawlIter h env path st).enqueuedPages, x ∈ (crawlIter h env path st).discoveredPages := by
  rw [crawlIter]
  cases env path with
  | connectFail => exact ⟨h1, h2⟩
  | sendFail => exact ⟨h1, h2⟩
  | got time body =>
    exact foldl_processLink_pages_inv h (extractUrls body)
      { st with stats :=
        { st.stats with discoveredPages :=
            st.stats.discoveredPages ++ [(h ++ path, if body = [] then -1 else time)] } } h1 h2

theorem crawlLoop_pages_inv (h : List Char) (pl : Int) (env : List Char → FetchOutcome) :
    ∀ (fuel : Nat) (st : CrawlState),
      st.enqueuedPages.Nodup → (∀ x ∈ st.enqueuedPages, x ∈ st.discoveredPages) →
      (crawlLoop h pl env fuel st).enqueuedPages.Nodup ∧
      ∀ x ∈ (crawlLoop h pl env fuel st).enqueuedPages,
        x ∈ (crawlLoop h pl env fuel st).discoveredPages := by
  intro fuel
  induction fuel with
  | zero => intro st h1 h2; exact ⟨h1, h2⟩
  | succ n ih =>
    intro st h1 h2
    rw [crawlLoop]
    cases hp : st.pendingPages with
    | nil => simp only [hp]; exact ⟨h1, h2⟩
    | cons path rest =>
      simp only [hp]
      by_cases hcond : pl = -1 ∨ (if st.stats.discoveredPages = [] then (0 : Int) else 1) < pl
      · rw [if_pos hcond]
        obtain ⟨g1, g2⟩ := crawlIter_pages_inv h env path
          { st with pendingPages := rest, dequeued := st.dequeued + 1 } h1 h2
        exact ih (crawlIter h env path { st with pendingPages := rest, dequeued := st.dequeued + 1 })
          g1 g2
      · rw [if_neg hcond]
        exact ⟨h1, h2⟩

/-- C8 (amended). Provided the seed hostnames are pairwise distinct, no
hostname is ever enqueued into the cross-site frontier twice across any run
(the ghost `enqueuedLog` stays duplicate-free through every sequence of worker
completions: once a hostname is in `discoveredSites` it is never re-enqueued);
and within one site crawl no path is ever enqueued into the page frontier
twice, unconditionally. Seed initialization itself enqueues unconditionally,
so the distinctness proviso is necessary (see the counterexample). -/
theorem frontier_enqueue_dedup (seeds : List (List Char))
    (hseeds : (seeds.map getHostnameFromUrl).Nodup)
    (lsl : Nat) (dl : Int) (jobs : List (Except Unit SiteStats × Int)) :
    ((runWorkers lsl dl jobs (initSites seeds)).enqueuedLog).Nodup ∧
    ∀ (h : List Char) (pl : Int) (env : List Char → FetchOutcome) (fuel : Nat),
      ((crawlLoop h pl env fuel (initCrawlState h)).enqueuedPages).Nodup := by
  constructor
  · obtain ⟨i1, _, i3⟩ := initFold_spec seeds emptyCrawlerState
    have hlog : (initSites seeds).enqueuedLog = seeds.map getHostnameFromUrl := by
      rw [initSites, i1]
      rfl
    refine (runWorkers_inv lsl dl jobs (initSites seeds) ?_ ?_).1
    · rw [hlog]
      exact hseeds
    · intro x hx
      rw [hlog] at hx
      exact i3 x hx
  · intro h pl env fuel
    refine (crawlLoop_pages_inv h pl env fuel (initCrawlState h) ?_ ?_).1
    · exact List.nodup_singleton _
    · intro x hx
      rw [List.mem_singleton.1 hx]
      exact List.mem_singleton.2 rfl

/-- Witness for C8's amended theorem on a single concrete seed. -/
theorem frontier_enqueue_dedup_witness :
    (List.map getHostnameFromUrl [exCom]).Nodup ∧
    ((runWorkers 1 1 [] (initSites [exCom])).enqueuedLog).Nodup :=
  ⟨by decide, (frontier_enqueue_dedup [exCom] (by decide) 1 1 []).1⟩

end WebReaper
